import Mathlib

/-!
Verification of the fitso.me local-first sync engine against its
natural-language specification.

The development shallowly embeds the relevant parts of the source:

* `src/src/lib/sync/changeTracker.ts` — the change tracker: the module level
  `isTracking` flag, the Dexie creating/updating/deleting hooks registered on
  the five synced tables, and the helpers `applyServerChanges`,
  `bulkImportWithoutTracking` and `clearTableWithoutTracking`.
* `src/workers/src/routes/images.ts` — the image routes of the worker:
  presign-upload, upload, delete, with R2 modelled as a map from keys to
  stored objects.
* the `signOut` flow of the auth client (an unnamed source file).

Local Dexie tables are modelled as maps `String → Option Rec`; the single
module level tracker state (the `isTracking` flag, the `isInitialized` flag
and the durable outbox written by `logChange`) is a `DB` record threaded
explicitly.  Fallible IndexedDB primitives are modelled with `Except`, with a
`FailSpec` oracle choosing which primitive calls throw.
-/

namespace Fitso

/-- The five synced tables (the `SyncTable` union of the source). -/
inductive SyncTable where
  | items
  | trips
  | tripItems
  | outfits
  | wishlist
deriving DecidableEq, Repr

/-- The `ChangeOperation` union of the source. -/
inductive ChangeOperation where
  | create
  | update
  | delete
deriving DecidableEq, Repr

/-- A synced record: a stable string id, the sync-relevant attributes
`updatedAt` and `_deleted` (here `deleted`), and `payload` standing for all
remaining domain fields. -/
structure Rec where
  id : String
  updatedAt : Nat
  payload : String
  deleted : Bool
deriving DecidableEq, Repr

/-- A partial Dexie modifications object, as passed to an updating hook:
each field is either absent or a new value. -/
structure Mods where
  updatedAt : Option Nat := none
  payload : Option String := none
  deleted : Option Bool := none
deriving DecidableEq, Repr

/-- The spread `{...obj, ...modifications}` of the updating hooks: the
existing record overridden by the present fields of the modifications. -/
def applyMods (r : Rec) (m : Mods) : Rec :=
  { r with
    updatedAt := m.updatedAt.getD r.updatedAt
    payload := m.payload.getD r.payload
    deleted := m.deleted.getD r.deleted }

/-- The modifications object a Dexie put presents to the updating hook:
every field of the incoming record. -/
def modsOfRec (r : Rec) : Mods :=
  { updatedAt := some r.updatedAt, payload := some r.payload, deleted := some r.deleted }

/-- The modifications object `{_deleted: true}` used by the soft-delete
pass of `applyServerChanges`. -/
def deleteMods : Mods :=
  { deleted := some true }

/-- An outbox entry (`LocalChange` of the source, without the storage
generated surrogate id and wall-clock timestamp). -/
structure LocalChange where
  table : SyncTable
  recordId : String
  operation : ChangeOperation
  payload : Option Rec
deriving DecidableEq, Repr

/-- A Dexie table keyed by record id. -/
abbrev Table := String → Option Rec

/-- The module level state of the change tracker together with the local
store it hooks into: the `isTracking` flag, the `isInitialized` flag, the
outbox that `logChange` appends to, and the five tables. -/
@[ext]
structure DB where
  tracking : Bool
  hooksInstalled : Bool
  outbox : List LocalChange
  tables : SyncTable → Table

/-- `setTrackingEnabled` of the source. -/
def setTrackingEnabled (d : DB) (enabled : Bool) : DB :=
  { d with tracking := enabled }

/-- `isTrackingEnabled` of the source. -/
def isTrackingEnabled (d : DB) : Bool :=
  d.tracking

/-- Modelled from the spec: `logChange` lives in `@/db`, outside the staged
sources.  §4.1 of the spec: every enabled call appends exactly one
LocalChange to the outbox. -/
def logChange (d : DB) (tbl : SyncTable) (recordId : String)
    (op : ChangeOperation) (payload : Option Rec) : DB :=
  { d with outbox := d.outbox ++ [⟨tbl, recordId, op, payload⟩] }

/-- The body registered by `initializeChangeTracking` as the creating hook of
each of the five tables: if tracking is off, return at once; otherwise log a
create with the new object. -/
def creatingHook (d : DB) (tbl : SyncTable) (primKey : String) (obj : Rec) : DB :=
  if d.tracking then logChange d tbl primKey .create (some obj) else d

/-- The body registered as the updating hook of each table: if tracking is
off, return at once; otherwise log an update with `{...obj, ...modifications}`. -/
def updatingHook (d : DB) (tbl : SyncTable) (mods : Mods) (primKey : String)
    (obj : Rec) : DB :=
  if d.tracking then logChange d tbl primKey .update (some (applyMods obj mods)) else d

/-- The body registered as the deleting hook of each table: if tracking is
off, return at once; otherwise log a delete with no payload. -/
def deletingHook (d : DB) (tbl : SyncTable) (primKey : String) : DB :=
  if d.tracking then logChange d tbl primKey .delete none else d

/-- Replace one table of the store. -/
def setTable (d : DB) (tbl : SyncTable) (T : Table) : DB :=
  { d with tables := fun t => if t = tbl then T else d.tables t }

/-- Overwrite-or-insert one record, keyed by its id. -/
def putRec (T : Table) (r : Rec) : Table :=
  fun k => if k = r.id then some r else T k

/-- Dexie `Table.put`: fires the creating hook when the key is absent and
the updating hook when it is present, then writes the record. -/
def dbPut (d : DB) (tbl : SyncTable) (r : Rec) : DB :=
  let d' :=
    match d.tables tbl r.id with
    | none => creatingHook d tbl r.id r
    | some obj => updatingHook d tbl (modsOfRec r) r.id obj
  setTable d' tbl (putRec (d'.tables tbl) r)

/-- Dexie `Table.update(id, {_deleted: true})`: when the record exists the
updating hook fires and the record is merged with the modifications (the
boolean reports whether a record was updated); otherwise nothing happens. -/
def dbUpdateDeleted (d : DB) (tbl : SyncTable) (i : String) : DB × Bool :=
  match d.tables tbl i with
  | none => (d, false)
  | some obj =>
    let d' := updatingHook d tbl deleteMods i obj
    (setTable d' tbl (fun k => if k = i then some (applyMods obj deleteMods) else d'.tables tbl k),
      true)

/-- `applyServerChanges` of the source: remember the tracking flag, disable
tracking, put every upsert in order, then for each delete id fetch the
record and, when it exists, mark it `_deleted` and count it; finally restore
the tracking flag.  Returns the new state with the upserted and deleted
counts. -/
def applyServerChanges (d : DB) (tbl : SyncTable) (upserts : List Rec)
    (deletes : List String) : DB × Nat × Nat :=
  let wasTracking := isTrackingEnabled d
  let d0 := setTrackingEnabled d false
  let up := upserts.foldl (fun acc r => (dbPut acc.1 tbl r, acc.2 + 1)) (d0, 0)
  let del := deletes.foldl
    (fun acc i =>
      match acc.1.tables tbl i with
      | some _ => ((dbUpdateDeleted acc.1 tbl i).1, acc.2 + 1)
      | none => acc)
    (up.1, 0)
  (setTrackingEnabled del.1 wasTracking, up.2, del.2)

/-! ### Pure reference functions on a single table -/

/-- All upserts applied in order (the table component of the upsert pass). -/
def putAllT (T : Table) (ups : List Rec) : Table :=
  ups.foldl putRec T

/-- The last record of the list carrying the given id, if any: with
overwrite-or-insert semantics the last write for an id wins. -/
def lastPut (ups : List Rec) (k : String) : Option Rec :=
  match ups with
  | [] => none
  | r :: rest =>
    match lastPut rest k with
    | some r' => some r'
    | none => if r.id = k then some r else none

/-- Soft-delete marker. -/
def setDeleted (r : Rec) : Rec :=
  { r with deleted := true }

/-- One soft-delete step on a bare table. -/
def markOne (T : Table) (i : String) : Table :=
  match T i with
  | some r => fun k => if k = i then some (setDeleted r) else T k
  | none => T

/-- All soft-delete marks applied in order. -/
def markAllT (T : Table) (dels : List String) : Table :=
  dels.foldl markOne T

/-! ### Fallible storage primitives

The source awaits IndexedDB operations that can throw; the try/finally of
`applyServerChanges`, `bulkImportWithoutTracking` and
`clearTableWithoutTracking` restores the tracking flag on any exit.  A
`FailSpec` oracle decides which primitive calls throw; a throwing call
leaves the store unchanged and the error carries the state at the throw so
the finally block can run on it. -/

/-- Which storage primitive calls throw. -/
structure FailSpec where
  putFails : SyncTable → Rec → Bool
  updateFails : SyncTable → String → Bool
  bulkPutFails : SyncTable → Bool
  clearFails : SyncTable → Bool

/-- A put that may throw. -/
def dbPutE (f : FailSpec) (d : DB) (tbl : SyncTable) (r : Rec) : Except String DB :=
  if f.putFails tbl r then .error "put failed" else .ok (dbPut d tbl r)

/-- An update that may throw. -/
def dbUpdateDeletedE (f : FailSpec) (d : DB) (tbl : SyncTable) (i : String) :
    Except String (DB × Bool) :=
  if f.updateFails tbl i then .error "update failed" else .ok (dbUpdateDeleted d tbl i)

/-- The upsert loop of `applyServerChanges` with fallible puts: stops at the
first throw, keeping the effects of the prior iterations (each awaited put
is its own transaction). -/
def putLoopE (f : FailSpec) (tbl : SyncTable) :
    List Rec → DB → Nat → Except (String × DB) (DB × Nat)
  | [], d, n => .ok (d, n)
  | r :: rest, d, n =>
    match dbPutE f d tbl r with
    | .error e => .error (e, d)
    | .ok d' => putLoopE f tbl rest d' (n + 1)

/-- The delete loop of `applyServerChanges` with fallible updates: fetch the
record, and when it exists update it (which may throw) and count it. -/
def delLoopE (f : FailSpec) (tbl : SyncTable) :
    List String → DB → Nat → Except (String × DB) (DB × Nat)
  | [], d, n => .ok (d, n)
  | i :: rest, d, n =>
    match d.tables tbl i with
    | none => delLoopE f tbl rest d n
    | some _ =>
      match dbUpdateDeletedE f d tbl i with
      | .error e => .error (e, d)
      | .ok (d', _) => delLoopE f tbl rest d' (n + 1)

/-- `applyServerChanges` with fallible primitives and the try/finally made
explicit: the tracking flag is restored on the normal return and on every
exceptional exit.  The first component is the state after the finally
block; the second is either the counts or the propagated error. -/
def applyServerChangesE (f : FailSpec) (d : DB) (tbl : SyncTable)
    (upserts : List Rec) (deletes : List String) :
    DB × Except String (Nat × Nat) :=
  let wasTracking := isTrackingEnabled d
  let d0 := setTrackingEnabled d false
  match putLoopE f tbl upserts d0 0 with
  | .error (e, d1) => (setTrackingEnabled d1 wasTracking, .error e)
  | .ok (d1, nUp) =>
    match delLoopE f tbl deletes d1 0 with
    | .error (e, d2) => (setTrackingEnabled d2 wasTracking, .error e)
    | .ok (d2, nDel) => (setTrackingEnabled d2 wasTracking, .ok (nUp, nDel))

/-- Dexie `Table.bulkPut` in one transaction: throws as a whole (leaving the
table untouched) or puts every record in order. -/
def bulkPutE (f : FailSpec) (d : DB) (tbl : SyncTable) (records : List Rec) :
    Except String DB :=
  if f.bulkPutFails tbl then .error "bulkPut failed"
  else .ok (records.foldl (fun d' r => dbPut d' tbl r) d)

/-- `bulkImportWithoutTracking` of the source with the try/finally made
explicit. -/
def bulkImportWithoutTrackingE (f : FailSpec) (d : DB) (tbl : SyncTable)
    (records : List Rec) : DB × Except String Nat :=
  let wasTracking := isTrackingEnabled d
  let d0 := setTrackingEnabled d false
  match bulkPutE f d0 tbl records with
  | .error e => (setTrackingEnabled d0 wasTracking, .error e)
  | .ok d1 => (setTrackingEnabled d1 wasTracking, .ok records.length)

/-- Dexie `Table.clear`: throws leaving the table untouched, or empties it. -/
def dbClearE (f : FailSpec) (d : DB) (tbl : SyncTable) : Except String DB :=
  if f.clearFails tbl then .error "clear failed"
  else .ok (setTable d tbl (fun _ => none))

/-- `clearTableWithoutTracking` of the source with the try/finally made
explicit. -/
def clearTableWithoutTrackingE (f : FailSpec) (d : DB) (tbl : SyncTable) :
    DB × Except String Unit :=
  let wasTracking := isTrackingEnabled d
  let d0 := setTrackingEnabled d false
  match dbClearE f d0 tbl with
  | .error e => (setTrackingEnabled d0 wasTracking, .error e)
  | .ok d1 => (setTrackingEnabled d1 wasTracking, .ok ())

/-! ### The image routes of the worker (`src/workers/src/routes/images.ts`)

R2 is a map from object keys to stored objects.  The SHA-256 digest of
`computeHash` is a platform primitive (`crypto.subtle.digest`); the routes
are embedded generically in the digest function `ch : List Nat → String`,
so every theorem below holds for the real digest in particular. -/

/-- An object stored in R2: its http content type, its bytes, and the
`uploadedBy` field of its custom metadata (absent on objects stored without
it). -/
structure StoredObject where
  contentType : String
  body : List Nat
  uploadedBy : Option String
deriving DecidableEq, Repr

/-- The R2 bucket. -/
abbrev R2Store := String → Option StoredObject

/-- Maximum image size: 10MB, as in the source. -/
def MAX_IMAGE_SIZE : Nat := 10 * 1024 * 1024

/-- The allowed image content types, as in the source. -/
def ALLOWED_CONTENT_TYPES : List String :=
  ["image/jpeg", "image/jpg", "image/png", "image/webp", "image/gif"]

/-- The JSON body a route answers with (only the fields the image routes
ever set). -/
structure ApiResponse where
  status : Nat := 200
  success : Bool := true
  error : Option String := none
  alreadyExists : Option Bool := none
  imageRef : Option String := none
  uploadUrl : Option String := none
  message : Option String := none
deriving DecidableEq, Repr

/-- A 400 validation error response. -/
def errResp (msg : String) : ApiResponse :=
  { status := 400, success := false, error := some msg }

/-- The R2 object key of a content hash. -/
def imageKey (hash : String) : String :=
  "images/" ++ hash

/-- POST /images/presign-upload: validate hash, content type and size (a
falsy size — 0 — fails the `!size` check), then answer with the dedup
short-circuit when the key already exists, else with the worker upload URL.
The handler never writes to the store. -/
def presignUpload (store : R2Store) (hash contentType : String) (size : Nat) :
    ApiResponse :=
  if hash = "" ∨ hash.length ≠ 64 then errResp "Invalid hash"
  else if contentType = "" ∨ contentType ∉ ALLOWED_CONTENT_TYPES then
    errResp "Invalid content type"
  else if size = 0 ∨ size > MAX_IMAGE_SIZE then errResp "Image too large (max 10MB)"
  else
    match store (imageKey hash) with
    | some _ =>
      { alreadyExists := some true, imageRef := some (imageKey hash) }
    | none =>
      { alreadyExists := some false, imageRef := some (imageKey hash),
        uploadUrl := some ("/images/upload/" ++ hash) }

/-- PUT /images/upload/:hash: validate the hash parameter, the Content-Type
header and the body size, recompute the digest of the received bytes and
reject on mismatch, answer without writing when the key already exists, and
otherwise store the blob with the uploader recorded in its metadata. -/
def uploadImage (ch : List Nat → String) (store : R2Store) (userId : String)
    (hash : String) (ctHeader : Option String) (body : List Nat) :
    ApiResponse × R2Store :=
  if hash = "" ∨ hash.length ≠ 64 then (errResp "Invalid hash", store)
  else
    match ctHeader with
    | none => (errResp "Invalid content type", store)
    | some ct =>
      if ct = "" ∨ ct ∉ ALLOWED_CONTENT_TYPES then (errResp "Invalid content type", store)
      else if body.length > MAX_IMAGE_SIZE then (errResp "Image too large", store)
      else if ch body ≠ hash then (errResp "Hash mismatch", store)
      else
        match store (imageKey hash) with
        | some _ =>
          ({ imageRef := some (imageKey hash), message := some "Image already exists" },
            store)
        | none =>
          ({ imageRef := some (imageKey hash) },
            fun k => if k = imageKey hash then some ⟨ct, body, some userId⟩ else store k)

/-- DELETE /images/:hash: validate the hash; a missing object is
acknowledged as already deleted; an object whose metadata records a
different uploader is left in place (shared), still reporting success; an
object with no recorded uploader, or uploaded by the caller, is removed. -/
def deleteImage (store : R2Store) (userId : String) (hash : String) :
    ApiResponse × R2Store :=
  if hash = "" ∨ hash.length ≠ 64 then (errResp "Invalid hash", store)
  else
    match store (imageKey hash) with
    | none => ({ message := some "Image already deleted" }, store)
    | some obj =>
      match obj.uploadedBy with
      | some u =>
        if u ≠ userId then ({ message := some "Image is shared" }, store)
        else ({ }, fun k => if k = imageKey hash then none else store k)
      | none => ({ }, fun k => if k = imageKey hash then none else store k)

/-! ### The signOut flow of the auth client -/

/-- The device local sync metadata singleton (the session fields the auth
client reads and clears). -/
structure SyncMeta where
  userId : String
  username : String
  email : String
  sessionToken : String
  syncEnabled : Bool
  lastSyncVersion : Nat
deriving DecidableEq, Repr

/-- The device local sync state: the metadata singleton and the outbox. -/
structure LocalSyncState where
  meta : SyncMeta
  outbox : List LocalChange
deriving DecidableEq, Repr

/-- `getCurrentSession` of the auth client: a session exists exactly when
both the user id and the session token are present. -/
def getCurrentSession (st : LocalSyncState) : Bool :=
  st.meta.userId ≠ "" && st.meta.sessionToken ≠ ""

/-- Modelled from the spec: `clearSyncData` lives in `@/db`, outside the
staged sources.  §3 of the spec: the SyncMeta session state is destroyed on
sign-out together with all outbox entries. -/
def clearSyncData (_st : LocalSyncState) : LocalSyncState :=
  { meta :=
      { userId := "", username := "", email := "", sessionToken := "",
        syncEnabled := false, lastSyncVersion := 0 },
    outbox := [] }

/-- How the best-effort POST /auth/logout round trip ends. -/
inductive FetchOutcome where
  | ok
  | httpError
  | netThrow
deriving DecidableEq, Repr

/-- The remote calls the engine can make that signOut could conceivably
issue. -/
inductive ServerCall where
  | logout
  | push
  | pull
deriving DecidableEq, Repr

/-- `signOut` of the auth client: when an API URL is configured and a
session exists, POST /auth/logout is attempted; its outcome is ignored (a
non-ok response is not inspected and a thrown network error is caught and
only logged), then the local sync data is cleared.  No push of the outbox
is issued.  Returns the local state after the call and the list of remote
calls made. -/
def signOut (apiConfigured : Bool) (outcome : FetchOutcome)
    (st : LocalSyncState) : LocalSyncState × List ServerCall :=
  let calls :=
    if apiConfigured && getCurrentSession st then
      match outcome with
      | .ok => [ServerCall.logout]
      | .httpError => [ServerCall.logout]
      | .netThrow => [ServerCall.logout]
    else []
  (clearSyncData st, calls)

/-! ### Concrete inputs used by the closed witness and counterexample
theorems -/

/-- A well-formed 64-character hex digest. -/
def hashA : String :=
  "aaaaaaaaaaaaaaaaaaaaaaaaaaaaaaaaaaaaaaaaaaaaaaaaaaaaaaaaaaaaaaaa"

/-- A second well-formed 64-character hex digest, distinct from `hashA`. -/
def hashB : String :=
  "bbbbbbbbbbbbbbbbbbbbbbbbbbbbbbbbbbbbbbbbbbbbbbbbbbbbbbbbbbbbbbbb"

/-- A concrete digest function mapping every byte string to `hashA`. -/
def chA : List Nat → String := fun _ => hashA

/-- The empty R2 bucket. -/
def emptyStore : R2Store := fun _ => none

/-- A bucket holding one png at the key of `hashA`, uploaded by userA. -/
def storeWithA : R2Store :=
  fun k => if k = imageKey hashA then some ⟨"image/png", [1], some "userA"⟩ else none

/-- A concrete tracker state with tracking disabled. -/
def dbOff : DB :=
  { tracking := false, hooksInstalled := true, outbox := [], tables := fun _ _ => none }

/-- A concrete record. -/
def recW : Rec :=
  { id := "r1", updatedAt := 1, payload := "p", deleted := false }

/-! ## Helper lemmas on the tracker state -/

@[simp]
theorem setTable_tracking (d : DB) (tbl : SyncTable) (T : Table) :
    (setTable d tbl T).tracking = d.tracking := rfl

@[simp]
theorem setTable_outbox (d : DB) (tbl : SyncTable) (T : Table) :
    (setTable d tbl T).outbox = d.outbox := rfl

@[simp]
theorem setTable_hooksInstalled (d : DB) (tbl : SyncTable) (T : Table) :
    (setTable d tbl T).hooksInstalled = d.hooksInstalled := rfl

theorem setTable_tables (d : DB) (tbl : SyncTable) (T : Table) (t : SyncTable) :
    (setTable d tbl T).tables t = if t = tbl then T else d.tables t := rfl

@[simp]
theorem setTable_tables_self (d : DB) (tbl : SyncTable) (T : Table) :
    (setTable d tbl T).tables tbl = T := by
  simp [setTable]

theorem setTable_self (d : DB) (tbl : SyncTable) :
    setTable d tbl (d.tables tbl) = d := by
  refine DB.ext rfl rfl rfl ?_
  funext t
  by_cases h : t = tbl <;> simp [setTable, h]

theorem setTable_setTable (d : DB) (tbl : SyncTable) (T1 T2 : Table) :
    setTable (setTable d tbl T1) tbl T2 = setTable d tbl T2 := by
  refine DB.ext rfl rfl rfl ?_
  funext t
  by_cases h : t = tbl <;> simp [setTable, h]

theorem setTable_congr (d d' : DB) (tbl : SyncTable) (T : Table)
    (htr : d'.tracking = d.tracking) (hob : d'.outbox = d.outbox)
    (hin : d'.hooksInstalled = d.hooksInstalled)
    (htb : ∀ t, t ≠ tbl → d'.tables t = d.tables t) :
    setTable d' tbl T = setTable d tbl T := by
  refine DB.ext htr hin hob ?_
  funext t
  by_cases h : t = tbl <;> simp [setTable, h, htb t]

@[simp]
theorem setTrackingEnabled_tracking (d : DB) (b : Bool) :
    (setTrackingEnabled d b).tracking = b := rfl

@[simp]
theorem setTrackingEnabled_outbox (d : DB) (b : Bool) :
    (setTrackingEnabled d b).outbox = d.outbox := rfl

@[simp]
theorem setTrackingEnabled_hooksInstalled (d : DB) (b : Bool) :
    (setTrackingEnabled d b).hooksInstalled = d.hooksInstalled := rfl

@[simp]
theorem setTrackingEnabled_tables (d : DB) (b : Bool) :
    (setTrackingEnabled d b).tables = d.tables := rfl

theorem setTrackingEnabled_self (d : DB) :
    setTrackingEnabled d d.tracking = d := by
  refine DB.ext rfl rfl rfl rfl

/-! Hooks leave every field but the outbox alone, and with tracking off they
do nothing at all. -/

theorem creatingHook_tables (d : DB) (tbl : SyncTable) (k : String) (o : Rec) :
    (creatingHook d tbl k o).tables = d.tables := by
  unfold creatingHook
  split <;> rfl

theorem updatingHook_tables (d : DB) (tbl : SyncTable) (m : Mods) (k : String) (o : Rec) :
    (updatingHook d tbl m k o).tables = d.tables := by
  unfold updatingHook
  split <;> rfl

theorem creatingHook_tracking (d : DB) (tbl : SyncTable) (k : String) (o : Rec) :
    (creatingHook d tbl k o).tracking = d.tracking := by
  unfold creatingHook
  split <;> rfl

theorem updatingHook_tracking (d : DB) (tbl : SyncTable) (m : Mods) (k : String) (o : Rec) :
    (updatingHook d tbl m k o).tracking = d.tracking := by
  unfold updatingHook
  split <;> rfl

theorem creatingHook_hooksInstalled (d : DB) (tbl : SyncTable) (k : String) (o : Rec) :
    (creatingHook d tbl k o).hooksInstalled = d.hooksInstalled := by
  unfold creatingHook
  split <;> rfl

theorem updatingHook_hooksInstalled (d : DB) (tbl : SyncTable) (m : Mods) (k : String) (o : Rec) :
    (updatingHook d tbl m k o).hooksInstalled = d.hooksInstalled := by
  unfold updatingHook
  split <;> rfl

theorem creatingHook_off (d : DB) (tbl : SyncTable) (k : String) (o : Rec)
    (h : d.tracking = false) : creatingHook d tbl k o = d := by
  simp [creatingHook, h]

theorem updatingHook_off (d : DB) (tbl : SyncTable) (m : Mods) (k : String) (o : Rec)
    (h : d.tracking = false) : updatingHook d tbl m k o = d := by
  simp [updatingHook, h]

theorem deletingHook_off (d : DB) (tbl : SyncTable) (k : String)
    (h : d.tracking = false) : deletingHook d tbl k = d := by
  simp [deletingHook, h]

/-! The storage primitives preserve the tracker flags, and with tracking off
also the outbox; their effect on the touched table is the pure table
function. -/

theorem dbPut_tracking (d : DB) (tbl : SyncTable) (r : Rec) :
    (dbPut d tbl r).tracking = d.tracking := by
  unfold dbPut
  cases h : d.tables tbl r.id <;>
    simp [h, creatingHook_tracking, updatingHook_tracking]

theorem dbPut_hooksInstalled (d : DB) (tbl : SyncTable) (r : Rec) :
    (dbPut d tbl r).hooksInstalled = d.hooksInstalled := by
  unfold dbPut
  cases h : d.tables tbl r.id <;>
    simp [h, creatingHook_hooksInstalled, updatingHook_hooksInstalled]

theorem dbPut_outbox_off (d : DB) (tbl : SyncTable) (r : Rec)
    (h : d.tracking = false) : (dbPut d tbl r).outbox = d.outbox := by
  unfold dbPut
  cases hg : d.tables tbl r.id <;>
    simp [hg, creatingHook_off _ _ _ _ h, updatingHook_off _ _ _ _ _ h]

theorem dbPut_tables (d : DB) (tbl : SyncTable) (r : Rec) :
    (dbPut d tbl r).tables =
      fun t => if t = tbl then putRec (d.tables tbl) r else d.tables t := by
  unfold dbPut
  cases hg : d.tables tbl r.id <;>
    simp [hg, creatingHook_tables, updatingHook_tables, setTable]

theorem dbUpdateDeleted_tracking (d : DB) (tbl : SyncTable) (i : String) :
    (dbUpdateDeleted d tbl i).1.tracking = d.tracking := by
  unfold dbUpdateDeleted
  cases h : d.tables tbl i <;> simp [h, updatingHook_tracking]

theorem dbUpdateDeleted_hooksInstalled (d : DB) (tbl : SyncTable) (i : String) :
    (dbUpdateDeleted d tbl i).1.hooksInstalled = d.hooksInstalled := by
  unfold dbUpdateDeleted
  cases h : d.tables tbl i <;> simp [h, updatingHook_hooksInstalled]

theorem dbUpdateDeleted_outbox_off (d : DB) (tbl : SyncTable) (i : String)
    (h : d.tracking = false) : (dbUpdateDeleted d tbl i).1.outbox = d.outbox := by
  unfold dbUpdateDeleted
  cases hg : d.tables tbl i <;> simp [hg, updatingHook_off _ _ _ _ _ h]

theorem applyMods_deleteMods (r : Rec) : applyMods r deleteMods = setDeleted r := rfl

theorem dbUpdateDeleted_tables (d : DB) (tbl : SyncTable) (i : String) :
    (dbUpdateDeleted d tbl i).1.tables =
      fun t => if t = tbl then markOne (d.tables tbl) i else d.tables t := by
  unfold dbUpdateDeleted markOne
  cases hg : d.tables tbl i
  · funext t
    by_cases h : t = tbl <;> simp [hg, h]
  · funext t
    by_cases h : t = tbl <;>
      simp [hg, h, updatingHook_tables, setTable, applyMods_deleteMods]

/-! ## The two passes of applyServerChanges, characterized -/

theorem putFold_spec (tbl : SyncTable) (ups : List Rec) :
    ∀ (d : DB) (n : Nat), d.tracking = false →
      ups.foldl (fun acc r => (dbPut acc.1 tbl r, acc.2 + 1)) (d, n) =
        (setTable d tbl (putAllT (d.tables tbl) ups), n + ups.length) := by
  induction ups with
  | nil =>
    intro d n _
    simp [putAllT, setTable_self]
  | cons r rest ih =>
    intro d n h
    have htr : (dbPut d tbl r).tracking = false := by rw [dbPut_tracking]; exact h
    have step := ih (dbPut d tbl r) (n + 1) htr
    simp only [List.foldl_cons] at step ⊢
    rw [step]
    have htbl : (dbPut d tbl r).tables tbl = putRec (d.tables tbl) r := by
      rw [dbPut_tables]; simp
    have hshift : setTable (dbPut d tbl r) tbl
        (putAllT ((dbPut d tbl r).tables tbl) rest) =
        setTable d tbl (putAllT ((dbPut d tbl r).tables tbl) rest) := by
      refine setTable_congr _ _ _ _ (dbPut_tracking d tbl r) (dbPut_outbox_off d tbl r h)
        (dbPut_hooksInstalled d tbl r) ?_
      intro t ht
      rw [dbPut_tables]
      simp [ht]
    rw [hshift, htbl]
    have : putAllT (d.tables tbl) (r :: rest) = putAllT (putRec (d.tables tbl) r) rest := rfl
    rw [this]
    have : n + 1 + rest.length = n + (rest.length + 1) := by omega
    simp [this]

theorem delFold_spec (tbl : SyncTable) (dels : List String) :
    ∀ (d : DB) (n : Nat), d.tracking = false →
      dels.foldl
          (fun acc i =>
            match acc.1.tables tbl i with
            | some _ => ((dbUpdateDeleted acc.1 tbl i).1, acc.2 + 1)
            | none => acc)
          (d, n) =
        (setTable d tbl (markAllT (d.tables tbl) dels),
          n + (dels.filter (fun i => (d.tables tbl i).isSome)).length) := by
  induction dels with
  | nil =>
    intro d n _
    simp [markAllT, setTable_self]
  | cons i rest ih =>
    intro d n h
    simp only [List.foldl_cons]
    cases hg : d.tables tbl i with
    | none =>
      have step := ih d n h
      simp only [hg]
      rw [step]
      have hmark : markAllT (d.tables tbl) (i :: rest) = markAllT (d.tables tbl) rest := by
        simp [markAllT, markOne, hg]
      have hfil : (i :: rest).filter (fun j => (d.tables tbl j).isSome) =
          rest.filter (fun j => (d.tables tbl j).isSome) := by
        simp [List.filter_cons, hg]
      rw [hmark, hfil]
    | some obj =>
      set d' := (dbUpdateDeleted d tbl i).1 with hd'
      have htr : d'.tracking = false := by rw [hd', dbUpdateDeleted_tracking]; exact h
      have step := ih d' (n + 1) htr
      simp only [hg]
      rw [step]
      have htbl : d'.tables tbl = markOne (d.tables tbl) i := by
        rw [hd', dbUpdateDeleted_tables]; simp
      have hshift : setTable d' tbl (markAllT (d'.tables tbl) rest) =
          setTable d tbl (markAllT (d'.tables tbl) rest) := by
        refine setTable_congr _ _ _ _ (dbUpdateDeleted_tracking d tbl i)
          (dbUpdateDeleted_outbox_off d tbl i h) (dbUpdateDeleted_hooksInstalled d tbl i) ?_
        intro t ht
        rw [hd', dbUpdateDeleted_tables]
        simp [ht]
      rw [hshift, htbl]
      have hmark : markAllT (d.tables tbl) (i :: rest) =
          markAllT (markOne (d.tables tbl) i) rest := rfl
      rw [hmark]
      have hisSome : ∀ j, ((markOne (d.tables tbl) i) j).isSome = ((d.tables tbl) j).isSome := by
        intro j
        unfold markOne
        cases hgi : d.tables tbl i with
        | none => rfl
        | some o =>
          by_cases hj : j = i <;> simp [hj, hgi]
      have hfil : rest.filter (fun j => ((markOne (d.tables tbl) i) j).isSome) =
          rest.filter (fun j => ((d.tables tbl) j).isSome) := by
        exact List.filter_congr (fun j _ => hisSome j)
      have hfilc : (i :: rest).filter (fun j => (d.tables tbl j).isSome) =
          i :: rest.filter (fun j => ((d.tables tbl) j).isSome) := by
        simp [List.filter_cons, hg]
      rw [hfil, hfilc]
      have : n + 1 + (rest.filter (fun j => ((d.tables tbl) j).isSome)).length =
          n + (i :: rest.filter (fun j => ((d.tables tbl) j).isSome)).length := by
        simp only [List.length_cons]
        omega
      rw [this]

/-- `applyServerChanges`, fully characterized: tracking, initialization flag
and outbox are untouched, the touched table becomes the pure two-pass
result, the upserted count is the number of upserts, and the deleted count
is the number of delete ids (with multiplicity) whose record exists after
the upsert pass. -/
theorem applyServerChanges_eq (d : DB) (tbl : SyncTable) (ups : List Rec)
    (dels : List String) :
    applyServerChanges d tbl ups dels =
      (setTable d tbl (markAllT (putAllT (d.tables tbl) ups) dels),
        ups.length,
        (dels.filter (fun i => (putAllT (d.tables tbl) ups i).isSome)).length) := by
  unfold applyServerChanges
  dsimp only
  have h0 : (setTrackingEnabled d false).tracking = false := rfl
  rw [putFold_spec tbl ups (setTrackingEnabled d false) 0 h0]
  have h1 : (setTable (setTrackingEnabled d false) tbl
      (putAllT ((setTrackingEnabled d false).tables tbl) ups)).tracking = false := by
    simp
  rw [delFold_spec tbl dels _ 0 h1]
  simp only [setTrackingEnabled_tables, setTable_tables_self, Nat.zero_add]
  rw [setTable_setTable]
  refine congrArg (fun x => (x, ups.length, _)) ?_
  refine DB.ext ?_ ?_ ?_ ?_
  · simp [setTrackingEnabled, isTrackingEnabled, setTable]
  · rfl
  · rfl
  · funext t
    by_cases ht : t = tbl <;> simp [setTrackingEnabled, setTable, ht]

/-! ## Pointwise characterization of the pure passes -/

theorem putAllT_apply (ups : List Rec) :
    ∀ (T : Table) (k : String),
      putAllT T ups k =
        match lastPut ups k with
        | some r => some r
        | none => T k := by
  induction ups with
  | nil => intro T k; rfl
  | cons r rest ih =>
    intro T k
    have hstep : putAllT T (r :: rest) = putAllT (putRec T r) rest := rfl
    rw [hstep, ih]
    cases h : lastPut rest k with
    | some r' => simp [lastPut, h]
    | none =>
      by_cases hk : r.id = k
      · simp [lastPut, h, putRec, hk]
      · have hk' : ¬(k = r.id) := fun he => hk he.symm
        simp [lastPut, h, putRec, hk, hk']

theorem setDeleted_setDeleted (r : Rec) : setDeleted (setDeleted r) = setDeleted r := rfl

theorem markOne_apply (T : Table) (i k : String) :
    markOne T i k = if k = i then (T k).map setDeleted else T k := by
  unfold markOne
  cases h : T i with
  | none =>
    by_cases hk : k = i
    · subst hk; simp [h]
    · simp [hk]
  | some r =>
    by_cases hk : k = i
    · subst hk; simp [h]
    · simp [hk]

theorem markAllT_apply (dels : List String) :
    ∀ (T : Table) (k : String),
      markAllT T dels k = if k ∈ dels then (T k).map setDeleted else T k := by
  induction dels with
  | nil => intro T k; simp [markAllT]
  | cons i rest ih =>
    intro T k
    have : markAllT T (i :: rest) = markAllT (markOne T i) rest := rfl
    rw [this, ih]
    rw [markOne_apply]
    by_cases hk : k = i
    · subst hk
      by_cases hr : k ∈ rest <;>
        simp [hr, Option.map_map, Function.comp_def, setDeleted_setDeleted]
    · by_cases hr : k ∈ rest <;> simp [hr, hk]

/-- The pure two-pass table transformation. -/
theorem twoPass_apply (T : Table) (ups : List Rec) (dels : List String) (k : String) :
    markAllT (putAllT T ups) dels k =
      (let afterUp :=
        match lastPut ups k with
        | some r => some r
        | none => T k
      if k ∈ dels then afterUp.map setDeleted else afterUp) := by
  rw [markAllT_apply, putAllT_apply]

/-- The two-pass transformation is idempotent. -/
theorem twoPass_idem (T : Table) (ups : List Rec) (dels : List String) :
    markAllT (putAllT (markAllT (putAllT T ups) dels) ups) dels =
      markAllT (putAllT T ups) dels := by
  funext k
  rw [markAllT_apply, markAllT_apply, putAllT_apply, putAllT_apply]
  cases h : lastPut ups k with
  | some r => rfl
  | none =>
    rw [markAllT_apply, putAllT_apply, h]
    by_cases hk : k ∈ dels <;>
      simp [hk, Option.map_map, Function.comp_def, setDeleted_setDeleted]

/-! ## Claim theorems for the change tracker -/

/-- C1: for every call to applyServerChanges(table, upserts, deletes), the
upserted count is the number of upserts (each written unconditionally, the
last write for an id winning over any existing local record), the deleted
count is the number of delete ids whose record exists locally after the
upsert pass, and per id the final table holds: the last upsert for the id
if any, else the prior local record; additionally marked `_deleted` (soft
delete, the record stays present) exactly when the id is in deletes and a
record exists — an id in deletes with no record stays absent, a no-op
rather than an error. -/
theorem applyServerChanges_correct (d : DB) (tbl : SyncTable) (ups : List Rec)
    (dels : List String) :
    (applyServerChanges d tbl ups dels).2.1 = ups.length ∧
    (applyServerChanges d tbl ups dels).2.2 =
      (dels.filter (fun i => (putAllT (d.tables tbl) ups i).isSome)).length ∧
    ∀ k, (applyServerChanges d tbl ups dels).1.tables tbl k =
      (let afterUp :=
        match lastPut ups k with
        | some r => some r
        | none => d.tables tbl k
      if k ∈ dels then afterUp.map setDeleted else afterUp) := by
  rw [applyServerChanges_eq]
  refine ⟨rfl, rfl, ?_⟩
  intro k
  simp only [setTable_tables_self]
  exact twoPass_apply _ ups dels k

/-- C2: applying the same pull response twice is idempotent — running
applyServerChanges(table, upserts, deletes) twice in sequence leaves the
local state exactly as running it once does. -/
theorem applyServerChanges_idem (d : DB) (tbl : SyncTable) (ups : List Rec)
    (dels : List String) :
    (applyServerChanges (applyServerChanges d tbl ups dels).1 tbl ups dels).1 =
      (applyServerChanges d tbl ups dels).1 := by
  have h1 : (applyServerChanges d tbl ups dels).1 =
      setTable d tbl (markAllT (putAllT (d.tables tbl) ups) dels) := by
    rw [applyServerChanges_eq]
  rw [h1, applyServerChanges_eq]
  dsimp only
  rw [setTable_tables_self, setTable_setTable, twoPass_idem]

/-- C3: while tracking is disabled, every creating/updating/deleting hook on
each of the five tables returns without invoking logChange (the state, in
particular the outbox, is unchanged); and applyServerChanges performs its
work with tracking disabled, so its outbox is never re-entered whatever the
tracking flag was on entry. -/
theorem tracking_disabled_no_outbox (d : DB) (tbl : SyncTable) :
    (isTrackingEnabled d = false →
      (∀ k obj, creatingHook d tbl k obj = d) ∧
      (∀ m k obj, updatingHook d tbl m k obj = d) ∧
      (∀ k, deletingHook d tbl k = d)) ∧
    (∀ ups dels, (applyServerChanges d tbl ups dels).1.outbox = d.outbox) := by
  constructor
  · intro h
    exact ⟨fun k obj => creatingHook_off d tbl k obj h,
      fun m k obj => updatingHook_off d tbl m k obj h,
      fun k => deletingHook_off d tbl k h⟩
  · intro ups dels
    rw [applyServerChanges_eq]
    simp

/-! ## Frame lemmas for the fallible variants (try/finally) -/

/-- What the loops must preserve while tracking is off. -/
def framePreserved (d0 d : DB) : Prop :=
  d.tracking = false ∧ d.outbox = d0.outbox ∧ d.hooksInstalled = d0.hooksInstalled

theorem framePreserved_trans {d0 d1 d2 : DB} (h1 : framePreserved d0 d1)
    (h2 : framePreserved d1 d2) : framePreserved d0 d2 :=
  ⟨h2.1, h2.2.1.trans h1.2.1, h2.2.2.trans h1.2.2⟩

theorem framePreserved_dbPut (d : DB) (tbl : SyncTable) (r : Rec)
    (h : d.tracking = false) : framePreserved d (dbPut d tbl r) :=
  ⟨(dbPut_tracking d tbl r).trans h, dbPut_outbox_off d tbl r h,
    dbPut_hooksInstalled d tbl r⟩

theorem framePreserved_dbUpdateDeleted (d : DB) (tbl : SyncTable) (i : String)
    (h : d.tracking = false) : framePreserved d (dbUpdateDeleted d tbl i).1 :=
  ⟨(dbUpdateDeleted_tracking d tbl i).trans h, dbUpdateDeleted_outbox_off d tbl i h,
    dbUpdateDeleted_hooksInstalled d tbl i⟩

theorem putLoopE_frame (f : FailSpec) (tbl : SyncTable) (ups : List Rec) :
    ∀ (d : DB) (n : Nat), d.tracking = false →
      (∀ d' n', putLoopE f tbl ups d n = .ok (d', n') → framePreserved d d') ∧
      (∀ e d', putLoopE f tbl ups d n = .error (e, d') → framePreserved d d') := by
  induction ups with
  | nil =>
    intro d n h
    constructor
    · intro d' n' he
      simp only [putLoopE, Except.ok.injEq, Prod.mk.injEq] at he
      rw [← he.1]
      exact ⟨h, rfl, rfl⟩
    · intro e d' he
      simp [putLoopE] at he
  | cons r rest ih =>
    intro d n h
    have hsplit : ∀ (res : Except (String × DB) (DB × Nat)),
        putLoopE f tbl (r :: rest) d n = res →
        (f.putFails tbl r = true ∧ res = .error ("put failed", d)) ∨
        (f.putFails tbl r = false ∧ res = putLoopE f tbl rest (dbPut d tbl r) (n + 1)) := by
      intro res he
      by_cases hf : f.putFails tbl r
      · left
        refine ⟨hf, ?_⟩
        rw [← he]
        simp [putLoopE, dbPutE, hf]
      · right
        refine ⟨eq_false_of_ne_true hf, ?_⟩
        rw [← he]
        simp [putLoopE, dbPutE, hf]
    constructor
    · intro d' n' he
      rcases hsplit _ he with ⟨_, hres⟩ | ⟨hf, hres⟩
      · simp at hres
      · have htr : (dbPut d tbl r).tracking = false := (dbPut_tracking d tbl r).trans h
        have hrec := (ih (dbPut d tbl r) (n + 1) htr).1 d' n' hres.symm
        exact framePreserved_trans (framePreserved_dbPut d tbl r h) hrec
    · intro e d' he
      rcases hsplit _ he with ⟨_, hres⟩ | ⟨hf, hres⟩
      · simp only [Except.error.injEq, Prod.mk.injEq] at hres
        rw [hres.2]
        exact ⟨h, rfl, rfl⟩
      · have htr : (dbPut d tbl r).tracking = false := (dbPut_tracking d tbl r).trans h
        have hrec := (ih (dbPut d tbl r) (n + 1) htr).2 e d' hres.symm
        exact framePreserved_trans (framePreserved_dbPut d tbl r h) hrec

theorem delLoopE_frame (f : FailSpec) (tbl : SyncTable) (dels : List String) :
    ∀ (d : DB) (n : Nat), d.tracking = false →
      (∀ d' n', delLoopE f tbl dels d n = .ok (d', n') → framePreserved d d') ∧
      (∀ e d', delLoopE f tbl dels d n = .error (e, d') → framePreserved d d') := by
  induction dels with
  | nil =>
    intro d n h
    constructor
    · intro d' n' he
      simp only [delLoopE, Except.ok.injEq, Prod.mk.injEq] at he
      rw [← he.1]
      exact ⟨h, rfl, rfl⟩
    · intro e d' he
      simp [delLoopE] at he
  | cons i rest ih =>
    intro d n h
    have hsplit : ∀ (res : Except (String × DB) (DB × Nat)),
        delLoopE f tbl (i :: rest) d n = res →
        (d.tables tbl i = none ∧ res = delLoopE f tbl rest d n) ∨
        ((∃ o, d.tables tbl i = some o) ∧ f.updateFails tbl i = true ∧
          res = .error ("update failed", d)) ∨
        ((∃ o, d.tables tbl i = some o) ∧ f.updateFails tbl i = false ∧
          res = delLoopE f tbl rest (dbUpdateDeleted d tbl i).1 (n + 1)) := by
      intro res he
      cases hg : d.tables tbl i with
      | none =>
        left
        refine ⟨rfl, ?_⟩
        rw [← he]
        simp [delLoopE, hg]
      | some o =>
        by_cases hf : f.updateFails tbl i
        · right; left
          refine ⟨⟨o, rfl⟩, hf, ?_⟩
          rw [← he]
          simp [delLoopE, hg, dbUpdateDeletedE, hf]
        · right; right
          refine ⟨⟨o, rfl⟩, eq_false_of_ne_true hf, ?_⟩
          rw [← he]
          simp [delLoopE, hg, dbUpdateDeletedE, hf]
    have hstep : (dbUpdateDeleted d tbl i).1.tracking = false :=
      (dbUpdateDeleted_tracking d tbl i).trans h
    constructor
    · intro d' n' he
      rcases hsplit _ he with ⟨_, hres⟩ | ⟨_, _, hres⟩ | ⟨_, _, hres⟩
      · exact (ih d n h).1 d' n' hres.symm
      · simp at hres
      · exact framePreserved_trans (framePreserved_dbUpdateDeleted d tbl i h)
          ((ih _ (n + 1) hstep).1 d' n' hres.symm)
    · intro e d' he
      rcases hsplit _ he with ⟨_, hres⟩ | ⟨_, _, hres⟩ | ⟨_, _, hres⟩
      · exact (ih d n h).2 e d' hres.symm
      · simp only [Except.error.injEq, Prod.mk.injEq] at hres
        rw [hres.2]
        exact ⟨h, rfl, rfl⟩
      · exact framePreserved_trans (framePreserved_dbUpdateDeleted d tbl i h)
          ((ih _ (n + 1) hstep).2 e d' hres.symm)

theorem bulkFold_frame (tbl : SyncTable) (records : List Rec) :
    ∀ (d : DB), d.tracking = false →
      framePreserved d (records.foldl (fun d' r => dbPut d' tbl r) d) := by
  induction records with
  | nil => intro d h; exact ⟨h, rfl, rfl⟩
  | cons r rest ih =>
    intro d h
    have htr : (dbPut d tbl r).tracking = false := (dbPut_tracking d tbl r).trans h
    exact framePreserved_trans (framePreserved_dbPut d tbl r h)
      (ih (dbPut d tbl r) htr)

/-- C9: applyServerChanges, bulkImportWithoutTracking and
clearTableWithoutTracking each restore the tracking flag to exactly its
entry value on normal return and on every exceptional exit (the FailSpec
oracle ranges over all ways a put/update/bulkPut/clear can throw), and
leave the rest of the tracker state — the initialization flag and the
outbox — untouched. -/
theorem withoutTracking_frame (f : FailSpec) (d : DB) (tbl : SyncTable)
    (ups : List Rec) (dels : List String) (records : List Rec) :
    ((applyServerChangesE f d tbl ups dels).1.tracking = d.tracking ∧
      (applyServerChangesE f d tbl ups dels).1.outbox = d.outbox ∧
      (applyServerChangesE f d tbl ups dels).1.hooksInstalled = d.hooksInstalled) ∧
    ((bulkImportWithoutTrackingE f d tbl records).1.tracking = d.tracking ∧
      (bulkImportWithoutTrackingE f d tbl records).1.outbox = d.outbox ∧
      (bulkImportWithoutTrackingE f d tbl records).1.hooksInstalled = d.hooksInstalled) ∧
    ((clearTableWithoutTrackingE f d tbl).1.tracking = d.tracking ∧
      (clearTableWithoutTrackingE f d tbl).1.outbox = d.outbox ∧
      (clearTableWithoutTrackingE f d tbl).1.hooksInstalled = d.hooksInstalled) := by
  have h0 : (setTrackingEnabled d false).tracking = false := rfl
  refine ⟨?_, ?_, ?_⟩
  · unfold applyServerChangesE
    cases hp : putLoopE f tbl ups (setTrackingEnabled d false) 0 with
    | error ed =>
      obtain ⟨e, d1⟩ := ed
      have hfr := (putLoopE_frame f tbl ups (setTrackingEnabled d false) 0 h0).2 e d1 hp
      simp only [hp]
      exact ⟨rfl, hfr.2.1, hfr.2.2⟩
    | ok dn =>
      obtain ⟨d1, nUp⟩ := dn
      have hfr1 := (putLoopE_frame f tbl ups (setTrackingEnabled d false) 0 h0).1 d1 nUp hp
      cases hd : delLoopE f tbl dels d1 0 with
      | error ed =>
        obtain ⟨e, d2⟩ := ed
        have hfr2 := (delLoopE_frame f tbl dels d1 0 hfr1.1).2 e d2 hd
        simp only [hp, hd]
        exact ⟨rfl, hfr2.2.1.trans hfr1.2.1, hfr2.2.2.trans hfr1.2.2⟩
      | ok dn2 =>
        obtain ⟨d2, nDel⟩ := dn2
        have hfr2 := (delLoopE_frame f tbl dels d1 0 hfr1.1).1 d2 nDel hd
        simp only [hp, hd]
        exact ⟨rfl, hfr2.2.1.trans hfr1.2.1, hfr2.2.2.trans hfr1.2.2⟩
  · unfold bulkImportWithoutTrackingE bulkPutE
    by_cases hf : f.bulkPutFails tbl
    · simp only [hf, reduceIte]
      exact ⟨rfl, rfl, rfl⟩
    · have hfr := bulkFold_frame tbl records (setTrackingEnabled d false) h0
      simp only [hf, if_neg, Bool.false_eq_true, reduceIte]
      exact ⟨rfl, hfr.2.1, hfr.2.2⟩
  · unfold clearTableWithoutTrackingE dbClearE
    by_cases hf : f.clearFails tbl
    · simp only [hf, reduceIte]
      exact ⟨rfl, rfl, rfl⟩
    · simp only [hf, Bool.false_eq_true, reduceIte]
      exact ⟨rfl, rfl, rfl⟩

/-! ## Claim theorems for the image routes -/

/-- C4: PUT /images/upload/:hash recomputes the digest of the received body
and, whenever it differs from the hash path parameter, rejects the request
with a 400 error storing nothing; conversely the store is only ever changed
when the recomputed digest equals the given hash. -/
theorem upload_verifies_digest (ch : List Nat → String) (store : R2Store)
    (uid hash : String) (ctHeader : Option String) (body : List Nat) :
    (ch body ≠ hash →
      (uploadImage ch store uid hash ctHeader body).1.success = false ∧
      (uploadImage ch store uid hash ctHeader body).1.status = 400 ∧
      (uploadImage ch store uid hash ctHeader body).2 = store) ∧
    ((uploadImage ch store uid hash ctHeader body).2 ≠ store → ch body = hash) := by
  unfold uploadImage
  by_cases h1 : hash = "" ∨ hash.length ≠ 64
  · rw [if_pos h1]
    exact ⟨fun _ => ⟨rfl, rfl, rfl⟩, fun hc => absurd rfl hc⟩
  · rw [if_neg h1]
    cases ctHeader with
    | none => exact ⟨fun _ => ⟨rfl, rfl, rfl⟩, fun hc => absurd rfl hc⟩
    | some ct =>
      dsimp only
      by_cases h2 : ct = "" ∨ ct ∉ ALLOWED_CONTENT_TYPES
      · rw [if_pos h2]
        exact ⟨fun _ => ⟨rfl, rfl, rfl⟩, fun hc => absurd rfl hc⟩
      · rw [if_neg h2]
        by_cases h3 : body.length > MAX_IMAGE_SIZE
        · rw [if_pos h3]
          exact ⟨fun _ => ⟨rfl, rfl, rfl⟩, fun hc => absurd rfl hc⟩
        · rw [if_neg h3]
          by_cases h4 : ch body ≠ hash
          · rw [if_pos h4]
            exact ⟨fun _ => ⟨rfl, rfl, rfl⟩, fun hc => absurd rfl hc⟩
          · rw [if_neg h4]
            push_neg at h4
            cases hg : store (imageKey hash) with
            | none =>
              simp only [hg]
              exact ⟨fun hne => absurd h4 hne, fun _ => h4⟩
            | some o =>
              simp only [hg]
              exact ⟨fun hne => absurd h4 hne, fun hc => absurd rfl hc⟩

/-- C6: both image endpoints validate before any storage: a too-large blob,
a content type outside the allowed set, or a hash that is not 64 characters
long draws a 400 validation error from POST /images/presign-upload (whose
handler never writes to the store) and from PUT /images/upload/:hash (which
leaves the store unchanged); with otherwise valid input an oversized blob —
such as a 15MB image — draws exactly the size-validation error. -/
theorem images_validation (ch : List Nat → String) (store : R2Store)
    (uid hash ct : String) (size : Nat) (ctHeader : Option String) (body : List Nat) :
    ((hash.length ≠ 64 ∨ ct ∉ ALLOWED_CONTENT_TYPES ∨ size > MAX_IMAGE_SIZE) →
      (presignUpload store hash ct size).status = 400 ∧
      (presignUpload store hash ct size).success = false) ∧
    (hash.length = 64 → ct ∈ ALLOWED_CONTENT_TYPES → size > MAX_IMAGE_SIZE →
      presignUpload store hash ct size = errResp "Image too large (max 10MB)") ∧
    ((hash.length ≠ 64 ∨ (∀ c, ctHeader = some c → c ∉ ALLOWED_CONTENT_TYPES) ∨
        body.length > MAX_IMAGE_SIZE) →
      (uploadImage ch store uid hash ctHeader body).1.status = 400 ∧
      (uploadImage ch store uid hash ctHeader body).1.success = false ∧
      (uploadImage ch store uid hash ctHeader body).2 = store) ∧
    (hash.length = 64 → ct ∈ ALLOWED_CONTENT_TYPES → body.length > MAX_IMAGE_SIZE →
      uploadImage ch store uid hash (some ct) body = (errResp "Image too large", store)) := by
  refine ⟨?_, ?_, ?_, ?_⟩
  · intro hbad
    unfold presignUpload
    by_cases h1 : hash = "" ∨ hash.length ≠ 64
    · rw [if_pos h1]; exact ⟨rfl, rfl⟩
    · rw [if_neg h1]
      by_cases h2 : ct = "" ∨ ct ∉ ALLOWED_CONTENT_TYPES
      · rw [if_pos h2]; exact ⟨rfl, rfl⟩
      · rw [if_neg h2]
        push_neg at h1 h2
        have hsz : size = 0 ∨ size > MAX_IMAGE_SIZE := by
          rcases hbad with h | h | h
          · exact absurd h1.2 (by simpa using h)
          · exact absurd h2.2 (by simpa using h)
          · exact Or.inr h
        rw [if_pos hsz]
        exact ⟨rfl, rfl⟩
  · intro hlen hmem hsz
    have h1 : ¬(hash = "" ∨ hash.length ≠ 64) := by
      push_neg
      refine ⟨?_, hlen⟩
      intro he
      rw [he] at hlen
      simp at hlen
    have h2 : ¬(ct = "" ∨ ct ∉ ALLOWED_CONTENT_TYPES) := by
      push_neg
      refine ⟨?_, hmem⟩
      intro he
      rw [he] at hmem
      simp [ALLOWED_CONTENT_TYPES] at hmem
    unfold presignUpload
    rw [if_neg h1, if_neg h2, if_pos (Or.inr hsz)]
  · intro hbad
    unfold uploadImage
    by_cases h1 : hash = "" ∨ hash.length ≠ 64
    · rw [if_pos h1]; exact ⟨rfl, rfl, rfl⟩
    · rw [if_neg h1]
      cases ctHeader with
      | none => exact ⟨rfl, rfl, rfl⟩
      | some c =>
        dsimp only
        by_cases h2 : c = "" ∨ c ∉ ALLOWED_CONTENT_TYPES
        · rw [if_pos h2]; exact ⟨rfl, rfl, rfl⟩
        · rw [if_neg h2]
          push_neg at h1 h2
          have hlarge : body.length > MAX_IMAGE_SIZE := by
            rcases hbad with h | h | h
            · exact absurd h1.2 (by simpa using h)
            · exact absurd (h c rfl) (by simpa using h2.2)
            · exact h
          rw [if_pos hlarge]
          exact ⟨rfl, rfl, rfl⟩
  · intro hlen hmem hlarge
    have h1 : ¬(hash = "" ∨ hash.length ≠ 64) := by
      push_neg
      refine ⟨?_, hlen⟩
      intro he
      rw [he] at hlen
      simp at hlen
    have h2 : ¬(ct = "" ∨ ct ∉ ALLOWED_CONTENT_TYPES) := by
      push_neg
      refine ⟨?_, hmem⟩
      intro he
      rw [he] at hmem
      simp [ALLOWED_CONTENT_TYPES] at hmem
    unfold uploadImage
    rw [if_neg h1]
    dsimp only
    rw [if_neg h2, if_pos hlarge]

/-- C10: POST /images/presign-upload rejects a zero-byte size: with a valid
64-character hash and an allowed content type but size 0, the falsy-size
check answers the 400 error "Image too large (max 10MB)" even though zero
bytes do not exceed the maximum. -/
theorem presign_rejects_zero_size (store : R2Store) (hash ct : String)
    (hlen : hash.length = 64) (hmem : ct ∈ ALLOWED_CONTENT_TYPES) :
    presignUpload store hash ct 0 = errResp "Image too large (max 10MB)" := by
  have h1 : ¬(hash = "" ∨ hash.length ≠ 64) := by
    push_neg
    refine ⟨?_, hlen⟩
    intro he
    rw [he] at hlen
    simp at hlen
  have h2 : ¬(ct = "" ∨ ct ∉ ALLOWED_CONTENT_TYPES) := by
    push_neg
    refine ⟨?_, hmem⟩
    intro he
    rw [he] at hmem
    simp [ALLOWED_CONTENT_TYPES] at hmem
  unfold presignUpload
  rw [if_neg h1, if_neg h2, if_pos (Or.inl rfl)]

/-- C10 witness: a concrete zero-size presign request is rejected as too
large. -/
theorem presign_rejects_zero_size_witness :
    presignUpload emptyStore hashA "image/png" 0 = errResp "Image too large (max 10MB)" :=
  presign_rejects_zero_size emptyStore hashA "image/png" (by decide) (by decide)

/-- C5: uploading bytes whose content hash already exists remotely is a
dedup no-op that reports success: presign-upload answers alreadyExists true
with the imageRef and no upload URL; upload answers success without
touching the store; and uploading the same bytes twice stores exactly one
blob — the first call stores it, the second returns success leaving the
store exactly as it was. -/
theorem images_dedup (ch : List Nat → String) (store : R2Store)
    (uid hash ct : String) (size : Nat) (body : List Nat)
    (hlen : hash.length = 64) (hmem : ct ∈ ALLOWED_CONTENT_TYPES)
    (hsz : 0 < size) (hszle : size ≤ MAX_IMAGE_SIZE)
    (hbody : body.length ≤ MAX_IMAGE_SIZE) (hch : ch body = hash) :
    ((store (imageKey hash)).isSome →
      presignUpload store hash ct size =
        { alreadyExists := some true, imageRef := some (imageKey hash) }) ∧
    ((store (imageKey hash)).isSome →
      uploadImage ch store uid hash (some ct) body =
        ({ imageRef := some (imageKey hash), message := some "Image already exists" },
          store)) ∧
    (store (imageKey hash) = none →
      ((uploadImage ch store uid hash (some ct) body).2 (imageKey hash)).isSome ∧
      uploadImage ch (uploadImage ch store uid hash (some ct) body).2 uid hash
          (some ct) body =
        ({ imageRef := some (imageKey hash), message := some "Image already exists" },
          (uploadImage ch store uid hash (some ct) body).2)) := by
  have h1 : ¬(hash = "" ∨ hash.length ≠ 64) := by
    push_neg
    refine ⟨?_, hlen⟩
    intro he
    rw [he] at hlen
    simp at hlen
  have h2 : ¬(ct = "" ∨ ct ∉ ALLOWED_CONTENT_TYPES) := by
    push_neg
    refine ⟨?_, hmem⟩
    intro he
    rw [he] at hmem
    simp [ALLOWED_CONTENT_TYPES] at hmem
  have h3 : ¬(body.length > MAX_IMAGE_SIZE) := by omega
  have h4 : ¬(ch body ≠ hash) := by
    push_neg
    exact hch
  refine ⟨?_, ?_, ?_⟩
  · intro hex
    obtain ⟨o, ho⟩ := Option.isSome_iff_exists.mp hex
    have hsz' : ¬(size = 0 ∨ size > MAX_IMAGE_SIZE) := by
      push_neg
      omega
    unfold presignUpload
    rw [if_neg h1, if_neg h2, if_neg hsz', ho]
  · intro hex
    obtain ⟨o, ho⟩ := Option.isSome_iff_exists.mp hex
    unfold uploadImage
    rw [if_neg h1]
    dsimp only
    rw [if_neg h2, if_neg h3, if_neg h4, ho]
  · intro hnone
    have hfirst : uploadImage ch store uid hash (some ct) body =
        ({ imageRef := some (imageKey hash) },
          fun k => if k = imageKey hash then some ⟨ct, body, some uid⟩ else store k) := by
      unfold uploadImage
      rw [if_neg h1]
      dsimp only
      rw [if_neg h2, if_neg h3, if_neg h4, hnone]
    rw [hfirst]
    constructor
    · simp
    · unfold uploadImage
      rw [if_neg h1]
      dsimp only
      rw [if_neg h2, if_neg h3, if_neg h4]
      simp

/-- C5 witness: with a concrete digest function and concrete bytes, the
dedup short-circuits fire on an existing hash and a second identical upload
leaves the store of the first untouched. -/
theorem images_dedup_witness :
    (presignUpload storeWithA hashA "image/png" 1 =
      { alreadyExists := some true, imageRef := some (imageKey hashA) }) ∧
    (uploadImage chA storeWithA "userB" hashA (some "image/png") [1] =
      ({ imageRef := some (imageKey hashA), message := some "Image already exists" },
        storeWithA)) ∧
    (((uploadImage chA emptyStore "userA" hashA (some "image/png") [1]).2
        (imageKey hashA)).isSome ∧
      uploadImage chA (uploadImage chA emptyStore "userA" hashA (some "image/png") [1]).2
          "userA" hashA (some "image/png") [1] =
        ({ imageRef := some (imageKey hashA), message := some "Image already exists" },
          (uploadImage chA emptyStore "userA" hashA (some "image/png") [1]).2)) :=
  ⟨(images_dedup chA storeWithA "userB" hashA "image/png" 1 [1] (by decide) (by decide)
      (by decide) (by decide) (by decide) (by decide)).1 (by decide),
    (images_dedup chA storeWithA "userB" hashA "image/png" 1 [1] (by decide) (by decide)
      (by decide) (by decide) (by decide) (by decide)).2.1 (by decide),
    (images_dedup chA emptyStore "userA" hashA "image/png" 1 [1] (by decide) (by decide)
      (by decide) (by decide) (by decide) (by decide)).2.2 (by decide)⟩

/-- C6 witness: a 15MB request is rejected by both endpoints with the
size-validation error, and no blob is stored. -/
theorem images_validation_witness :
    (presignUpload emptyStore hashA "image/png" (15 * 1024 * 1024) =
      errResp "Image too large (max 10MB)") ∧
    (uploadImage chA emptyStore "userA" hashA (some "image/png")
        (List.replicate (15 * 1024 * 1024) 0) =
      (errResp "Image too large", emptyStore)) :=
  ⟨(images_validation chA emptyStore "userA" hashA "image/png" (15 * 1024 * 1024)
      (some "image/png") []).2.1 (by decide) (by decide) (by decide),
    (images_validation chA emptyStore "userA" hashA "image/png" 1 (some "image/png")
      (List.replicate (15 * 1024 * 1024) 0)).2.2.2 (by decide) (by decide)
      (by rw [List.length_replicate]; decide)⟩

/-- C7 counterexample: the delete route does no reference counting.  User A
uploads a blob; user B uploads the same bytes and is answered with success
and the shared imageRef (so a second account now references the hash); user
A then deletes, and the blob is removed from the store even though user B
still references it — refuting the claim that deletion only succeeds when
no other reference exists. -/
theorem delete_removes_referenced_blob :
    ((uploadImage chA emptyStore "userA" hashA (some "image/png") [1]).1.success = true) ∧
    ((uploadImage chA (uploadImage chA emptyStore "userA" hashA (some "image/png") [1]).2
        "userB" hashA (some "image/png") [1]).1.success = true) ∧
    ((uploadImage chA (uploadImage chA emptyStore "userA" hashA (some "image/png") [1]).2
        "userB" hashA (some "image/png") [1]).1.imageRef = some (imageKey hashA)) ∧
    ((deleteImage
        (uploadImage chA (uploadImage chA emptyStore "userA" hashA (some "image/png") [1]).2
          "userB" hashA (some "image/png") [1]).2
        "userA" hashA).1.success = true) ∧
    ((deleteImage
        (uploadImage chA (uploadImage chA emptyStore "userA" hashA (some "image/png") [1]).2
          "userB" hashA (some "image/png") [1]).2
        "userA" hashA).2 (imageKey hashA) = none) := by
  decide

/-- C7 (amended): DELETE /images/:hash checks the recorded uploader, not
references: when the stored object's uploadedBy is absent or equals the
caller, the blob is removed and success is reported; when it names a
different account, the call is a no-op that still reports success ("Image
is shared").  Other accounts referencing the hash do not prevent the
recorded uploader from deleting the blob. -/
theorem delete_owner_semantics (store : R2Store) (uid hash : String)
    (obj : StoredObject) (hlen : hash.length = 64)
    (hg : store (imageKey hash) = some obj) :
    (obj.uploadedBy = none ∨ obj.uploadedBy = some uid →
      deleteImage store uid hash =
        ({ }, fun k => if k = imageKey hash then none else store k)) ∧
    (∀ u, obj.uploadedBy = some u → u ≠ uid →
      deleteImage store uid hash = ({ message := some "Image is shared" }, store)) := by
  have h1 : ¬(hash = "" ∨ hash.length ≠ 64) := by
    push_neg
    refine ⟨?_, hlen⟩
    intro he
    rw [he] at hlen
    simp at hlen
  constructor
  · intro hown
    unfold deleteImage
    rw [if_neg h1, hg]
    dsimp only
    rcases hown with hnone | hself
    · rw [hnone]
    · rw [hself]
      dsimp only
      rw [if_neg (by simp)]
  · intro u hu hne
    unfold deleteImage
    rw [if_neg h1, hg]
    dsimp only
    rw [hu]
    dsimp only
    rw [if_pos hne]

/-- C7 witness: concretely, the recorded uploader removes the blob, and a
different account's delete is a success-reporting no-op. -/
theorem delete_owner_semantics_witness :
    (deleteImage storeWithA "userA" hashA =
      ({ }, fun k => if k = imageKey hashA then none else storeWithA k)) ∧
    (deleteImage storeWithA "userB" hashA =
      ({ message := some "Image is shared" }, storeWithA)) :=
  ⟨(delete_owner_semantics storeWithA "userA" hashA ⟨"image/png", [1], some "userA"⟩
      (by decide) (by decide)).1 (Or.inr rfl),
    (delete_owner_semantics storeWithA "userB" hashA ⟨"image/png", [1], some "userA"⟩
      (by decide) (by decide)).2 "userA" rfl (by decide)⟩

/-! ## Claim theorem for signOut -/

/-- C8: signOut always destroys the local sync state: whatever the outcome
of the best-effort POST /auth/logout round trip (success, http error, or a
thrown network error) and whether or not an API URL is configured, the
resulting local state is exactly clearSyncData of the old one — session
fields blank, outbox empty — and no push (flush) of pending outbox changes
is ever attempted. -/
theorem signOut_clears (cfg : Bool) (outcome : FetchOutcome) (st : LocalSyncState) :
    (signOut cfg outcome st).1 = clearSyncData st ∧
    (signOut cfg outcome st).1.meta.userId = "" ∧
    (signOut cfg outcome st).1.meta.sessionToken = "" ∧
    (signOut cfg outcome st).1.outbox = [] ∧
    ServerCall.push ∉ (signOut cfg outcome st).2 := by
  refine ⟨rfl, rfl, rfl, rfl, ?_⟩
  unfold signOut
  dsimp only
  by_cases h : cfg && getCurrentSession st
  · rw [if_pos h]
    cases outcome <;> decide
  · rw [if_neg h]
    decide

end Fitso
